import Mathlib

/-!
Verification development for the ensmallen CNE optimizer (cne.hpp) and the
AdaGrad update policy (ada_grad_update.hpp).

The CNE implementation file (cne_impl.hpp) is included by cne.hpp but is not
part of the sources at hand, so the evolutionary loop, the selection,
crossover and mutation operators, and the configuration validation are
modelled from the specification text; the AdaGrad update policy is embedded
directly from its source.

Matrices of parameters are flattened to lists of rationals; the stochastic
operators are parameterised by explicit draw streams (a seeded random source
threaded through the run, as the specification design notes prescribe), with a
validity predicate stating the ranges the draws come from.
-/

namespace CNE

/-- A candidate solution: the elements of one parameter matrix, flattened. -/
abbrev Candidate := List ℚ

/-- Modelled from the spec: an explicit pseudo-random source owned by the run
(spec design notes), supplying the draws used by the stochastic operators:
`cross k e` decides whether element `e` of pair `k`'s first child comes from
mom; `trial c e` is the uniform draw in `[0,1)` for the Bernoulli mutation
trial of element `e` of candidate `c`; `noise c e` is the uniform draw in
`[0,1]` scaled by `mutationSize` to give the mutation perturbation; `seed c e`
is the draw used to diversify the initial population. -/
structure RandomSource where
  cross : ℕ → ℕ → Bool
  trial : ℕ → ℕ → ℚ
  noise : ℕ → ℕ → ℚ
  seed : ℕ → ℕ → ℚ

/-- The draw streams lie in the ranges the spec assigns them. -/
def RandomSource.Valid (r : RandomSource) : Prop :=
  (∀ c e, 0 ≤ r.trial c e ∧ r.trial c e < 1) ∧
  (∀ c e, 0 ≤ r.noise c e ∧ r.noise c e ≤ 1)

/-- The CNE configuration surface: the six optimizer properties. -/
structure Config where
  populationSize : ℕ
  maxGenerations : ℕ
  mutationProb : ℚ
  mutationSize : ℚ
  selectPercent : ℚ
  tolerance : ℚ

/-- Modelled from the spec: eager configuration validation (error handling
design): population size at least 4, `selectPercent` in `(0,1]`, and
non-negative `mutationProb` and `mutationSize`. -/
def validConfig (c : Config) : Bool :=
  decide (4 ≤ c.populationSize) && decide (0 < c.selectPercent) &&
  decide (c.selectPercent ≤ 1) && decide (0 ≤ c.mutationProb) &&
  decide (0 ≤ c.mutationSize)

/-- The error kinds of the error handling design: eager configuration
rejection, propagated evaluator failure, and the programming-error-class
internal invariant violation (the Reproducer's dropout/elite partition
inconsistency) that aborts the run with a diagnostic. -/
inductive OptError
  | InvalidConfiguration
  | EvaluatorFailure
  | InternalInconsistency
deriving DecidableEq

/-- The states of the generational loop. -/
inductive Status
  | Running
  | ConvergedByTolerance
  | MaxGenerationsReached
deriving DecidableEq

/-- The outcome of a run: final status, best-ever fitness with its owning
candidate, the number of generations performed, the fitness values observed
across the whole run, and the best-so-far value recorded after each
generation. -/
structure RunResult where
  status : Status
  best : Option (ℚ × Candidate)
  generations : ℕ
  observed : List ℚ
  history : List ℚ
deriving DecidableEq

/-- Modelled from the spec: `numElite` is `round(selectPercent *
populationSize)`, clamped to be at least 2, then decremented by one if odd so
that elites pair up evenly; fixed once at optimization start. -/
def computeNumElite (selectPercent : ℚ) (populationSize : ℕ) : ℕ :=
  let r := (round (selectPercent * populationSize)).toNat
  let c := max r 2
  if c % 2 = 1 then c - 1 else c

/-- Modelled from the spec: uniform crossover. Each element of the first
child is chosen by an independent coin to come from mom or dad, and the
second child receives the complementary choice. -/
def Crossover (pick : ℕ → Bool) (mom dad : Candidate) : Candidate × Candidate :=
  ((List.range mom.length).map fun e =>
      if pick e then mom.getD e 0 else dad.getD e 0,
   (List.range mom.length).map fun e =>
      if pick e then dad.getD e 0 else mom.getD e 0)

/-- Modelled from the spec: one mutation pass over one candidate. Each
element independently passes a Bernoulli trial with probability
`mutationProb` (the uniform draw falls below the probability), and on success
receives additive noise drawn uniformly from `[0, mutationSize]`. -/
def MutateCandidate (prob size : ℚ) (trial noise : ℕ → ℚ) (c : Candidate) :
    Candidate :=
  (List.range c.length).map fun e =>
    if trial e < prob then c.getD e 0 + size * noise e else c.getD e 0

/-- Modelled from the spec: the Mutator applied to every candidate of the
population, elites and offspring alike. -/
def Mutate (prob size : ℚ) (r : RandomSource) (pop : List Candidate) :
    List Candidate :=
  (List.range pop.length).map fun c =>
    MutateCandidate prob size (r.trial c) (r.noise c) (pop.getD c [])

/-- Modelled from the spec: the Selector's RankIndex, a permutation of the
population indices stably sorted by ascending fitness. Insertion proceeds
from the right, so an earlier index is inserted into an already sorted
suffix, and the non-strict comparison places it before any equal later
index: equal-fitness candidates retain their original index order. -/
def RankIndex (fv : List ℚ) : List ℕ :=
  List.insertionSort (fun i j => fv.getD i 0 ≤ fv.getD j 0)
    (List.range fv.length)

/-- Modelled from the spec: one elite pair's contribution inside Reproduce.
Pair `k` takes mom and dad from ranks `2k` and `2k+1` of the incoming
population and writes their two children into the dropout slots consumed
from the worst end of the RankIndex. -/
def ReproduceStep (r : RandomSource) (rank : List ℕ) (pop : List Candidate)
    (n : ℕ) (q : List Candidate) (k : ℕ) : List Candidate :=
  let mom := pop.getD (rank.getD (2 * k) 0) []
  let dad := pop.getD (rank.getD (2 * k + 1) 0) []
  let ch := Crossover (r.cross k) mom dad
  (q.set (rank.getD (n - 1 - 2 * k) 0) ch.1).set
    (rank.getD (n - 2 - 2 * k) 0) ch.2

/-- Modelled from the spec: the Reproducer. Elites are paired sequentially
from the RankIndex (rank 0 with 1, rank 2 with 3, ...); each pair's two
children overwrite dropout slots consumed in RankIndex order from the worst
end. Parents are read from the incoming population, materialised before any
slot is overwritten. -/
def Reproduce (r : RandomSource) (numElite : ℕ) (pop : List Candidate)
    (fv : List ℚ) : List Candidate :=
  (List.range (numElite / 2)).foldl
    (ReproduceStep r (RankIndex fv) pop pop.length) pop

/-- Modelled from the spec: one population transition, select then reproduce
then mutate, producing the next generation from the current one and its
fitness values. -/
def NextGeneration (cfg : Config) (numElite : ℕ) (r : RandomSource)
    (pop : List Candidate) (fv : List ℚ) : List Candidate :=
  Mutate cfg.mutationProb cfg.mutationSize r (Reproduce r numElite pop fv)

/-- Modelled from the spec: the best-so-far tracking of the Selector, updated
whenever a strictly lower fitness is observed. -/
def updateBest (f : Candidate → ℚ) (pop : List Candidate)
    (b : Option (ℚ × Candidate)) : Option (ℚ × Candidate) :=
  pop.foldl (fun b c =>
    match b with
    | none => some (f c, c)
    | some p => if f c < p.1 then some (f c, c) else some p) b

/-- The fitness component of the tracked best. -/
def bestVal (b : Option (ℚ × Candidate)) : Option ℚ :=
  b.map Prod.fst

/-- The tracked best is faithful to the fitness values observed so far: when
present it carries its owning candidate's fitness, that fitness was
observed, and no observed fitness is lower; when absent nothing has been
observed. -/
def IsBest (f : Candidate → ℚ) (obs : List ℚ) :
    Option (ℚ × Candidate) → Prop
  | none => obs = []
  | some p => f p.2 = p.1 ∧ p.1 ∈ obs ∧ ∀ x ∈ obs, p.1 ≤ x

/-- Modelled from the spec: the tolerance termination condition, active only
for non-negative tolerance, met when the best fitness is at most the
tolerance. -/
def tolCheck (tol : ℚ) (b : Option (ℚ × Candidate)) : Bool :=
  match b with
  | none => false
  | some p => decide (0 ≤ tol) && decide (p.1 ≤ tol)

/-- Modelled from the spec: population initialization. Candidate 0 is the
caller's iterate; the rest copy it with independent per-element noise scaled
comparably to `mutationSize`. -/
def initialPopulation (size : ℚ) (seed : ℕ → ℕ → ℚ) (iterate : Candidate)
    (n : ℕ) : List Candidate :=
  (List.range n).map fun c =>
    if c = 0 then iterate
    else (List.range iterate.length).map fun e =>
      iterate.getD e 0 + size * seed c e

/-- Modelled from the spec: the generational loop. Per generation: evaluate
fitness, update the best-so-far, check the tolerance condition, then the
generation budget, and otherwise select, reproduce, mutate and continue. The
fuel argument is the number of generations the budget still allows, `gen` the
current generation number. This variant assumes slot-sufficient
configurations; the Reproducer's dropout-slot availability check and its
fatal internal consistency error are carried by `cneLoopE` below. -/
def cneLoop (cfg : Config) (numElite : ℕ) (f : Candidate → ℚ)
    (rng : ℕ → RandomSource) :
    ℕ → ℕ → List Candidate → Option (ℚ × Candidate) → List ℚ → List ℚ →
    RunResult
  | 0, gen, _pop, best, obs, hist =>
    ⟨Status.MaxGenerationsReached, best, gen - 1, obs, hist⟩
  | fuel + 1, gen, pop, best, obs, hist =>
    let fv := pop.map f
    let best1 := updateBest f pop best
    let obs1 := obs ++ fv
    let hist1 := hist ++ (bestVal best1).toList
    if tolCheck cfg.tolerance best1 then
      ⟨Status.ConvergedByTolerance, best1, gen, obs1, hist1⟩
    else if fuel = 0 then
      ⟨Status.MaxGenerationsReached, best1, gen, obs1, hist1⟩
    else
      cneLoop cfg numElite f rng fuel (gen + 1)
        (NextGeneration cfg numElite (rng gen) pop fv) best1 obs1 hist1

/-- Modelled from the spec: the Optimize entry point. Validates the
configuration eagerly, seeds the population, runs the generational loop, and
returns the run outcome together with the caller's iterate, which on success
holds the best-ever candidate's parameters and on a configuration error is
left unmodified. Like `cneLoop`, this variant assumes slot-sufficient
configurations; `OptimizeE` below additionally propagates the Reproducer's
fatal internal consistency error. -/
def Optimize (cfg : Config) (f : Candidate → ℚ) (rng : ℕ → RandomSource)
    (iterate : Candidate) : Except OptError RunResult × Candidate :=
  if validConfig cfg then
    let res := cneLoop cfg (computeNumElite cfg.selectPercent cfg.populationSize)
      f rng cfg.maxGenerations 1
      (initialPopulation cfg.mutationSize (rng 0).seed iterate
        cfg.populationSize)
      none [] []
    (Except.ok res, match res.best with | some p => p.2 | none => iterate)
  else
    (Except.error OptError.InvalidConfiguration, iterate)

/-- Modelled from the spec: the Reproducer with its availability check. Each
elite pair produces exactly two children, so numElite dropout slots are
required; if the available dropout slots (populationSize minus numElite) are
fewer than required, the operation fails with the fatal internal consistency
error instead of overwriting elite slots. -/
def ReproduceE (r : RandomSource) (numElite : ℕ) (pop : List Candidate)
    (fv : List ℚ) : Except OptError (List Candidate) :=
  if numElite ≤ pop.length - numElite then
    Except.ok (Reproduce r numElite pop fv)
  else
    Except.error OptError.InternalInconsistency

/-- Modelled from the spec: one population transition with the Reproducer's
error propagated: reproduce with the availability check, then mutate the
whole resulting population. -/
def NextGenerationE (cfg : Config) (numElite : ℕ) (r : RandomSource)
    (pop : List Candidate) (fv : List ℚ) : Except OptError (List Candidate) :=
  match ReproduceE r numElite pop fv with
  | Except.ok p => Except.ok (Mutate cfg.mutationProb cfg.mutationSize r p)
  | Except.error e => Except.error e

/-- Modelled from the spec: the generational loop with the Reproducer's
fatal internal consistency error propagated. Identical to `cneLoop` except
that a failed reproduce step aborts the run with the error. -/
def cneLoopE (cfg : Config) (numElite : ℕ) (f : Candidate → ℚ)
    (rng : ℕ → RandomSource) :
    ℕ → ℕ → List Candidate → Option (ℚ × Candidate) → List ℚ → List ℚ →
    Except OptError RunResult
  | 0, gen, _pop, best, obs, hist =>
    Except.ok ⟨Status.MaxGenerationsReached, best, gen - 1, obs, hist⟩
  | fuel + 1, gen, pop, best, obs, hist =>
    let fv := pop.map f
    let best1 := updateBest f pop best
    let obs1 := obs ++ fv
    let hist1 := hist ++ (bestVal best1).toList
    if tolCheck cfg.tolerance best1 then
      Except.ok ⟨Status.ConvergedByTolerance, best1, gen, obs1, hist1⟩
    else if fuel = 0 then
      Except.ok ⟨Status.MaxGenerationsReached, best1, gen, obs1, hist1⟩
    else
      match NextGenerationE cfg numElite (rng gen) pop fv with
      | Except.ok newpop =>
        cneLoopE cfg numElite f rng fuel (gen + 1) newpop best1 obs1 hist1
      | Except.error e => Except.error e

/-- Modelled from the spec: the Optimize entry point with the Reproducer's
fatal internal consistency error propagated to the caller; on any error the
caller's iterate is left unmodified. -/
def OptimizeE (cfg : Config) (f : Candidate → ℚ) (rng : ℕ → RandomSource)
    (iterate : Candidate) : Except OptError RunResult × Candidate :=
  if validConfig cfg then
    match cneLoopE cfg (computeNumElite cfg.selectPercent cfg.populationSize)
      f rng cfg.maxGenerations 1
      (initialPopulation cfg.mutationSize (rng 0).seed iterate
        cfg.populationSize)
      none [] [] with
    | Except.ok res =>
      (Except.ok res, match res.best with | some p => p.2 | none => iterate)
    | Except.error e => (Except.error e, iterate)
  else
    (Except.error OptError.InvalidConfiguration, iterate)

end CNE

/-- The AdaGrad per-run state: the iterate and the squared-gradient
accumulator, both matrices of the gradient's shape (ada_grad_update.hpp,
class Policy). -/
abbrev AdaGradState (rows cols : ℕ) :=
  (Fin rows → Fin cols → ℝ) × (Fin rows → Fin cols → ℝ)

/-- The squared gradient matrix is initialized to zeros, as in the Policy
constructor (squaredGradient.zeros()). -/
def adaGradInitialSquared (rows cols : ℕ) : Fin rows → Fin cols → ℝ :=
  fun _ _ => 0

/-- The Update step of AdaGradUpdate::Policy: first the elementwise squares
of the gradient are added to squaredGradient, then the iterate is decremented
by the scaled gradient divided elementwise by the square root of the updated
squaredGradient plus epsilon. -/
noncomputable def adaGradUpdate {rows cols : ℕ} (epsilon stepSize : ℝ)
    (st : AdaGradState rows cols) (gradient : Fin rows → Fin cols → ℝ) :
    AdaGradState rows cols :=
  let sq := fun i j => st.2 i j + gradient i j * gradient i j
  (fun i j => st.1 i j - (stepSize * gradient i j) /
      (Real.sqrt (sq i j) + epsilon),
   sq)

/-- A sequence of Update calls from a freshly constructed Policy: the state
after folding the given (stepSize, gradient) steps over the zero-initialized
squared gradient. -/
noncomputable def adaGradRun {rows cols : ℕ} (epsilon : ℝ)
    (iterate0 : Fin rows → Fin cols → ℝ)
    (steps : List (ℝ × (Fin rows → Fin cols → ℝ))) : AdaGradState rows cols :=
  steps.foldl (fun st sg => adaGradUpdate epsilon sg.1 st sg.2)
    (iterate0, adaGradInitialSquared rows cols)

/-! Helper lemmas about list access in the operator definitions. -/

lemma getD_range_map {α : Type} (f : ℕ → α) (n e : ℕ) (d : α) (he : e < n) :
    ((List.range n).map f).getD e d = f e := by
  rw [List.getD_eq_getElem _ _ (by simpa using he), List.getElem_map,
    List.getElem_range]

/-- C5: every element of each child produced by Crossover equals the
corresponding element of mom or of dad, and the two children are elementwise
complementary: at each position exactly one child inherits mom's element and
the other inherits dad's (the parents, being values of a pure function, are
unmodified). -/
theorem Crossover_elementwise_complementary (pick : ℕ → Bool)
    (mom dad : CNE.Candidate) :
    (CNE.Crossover pick mom dad).1.length = mom.length ∧
    (CNE.Crossover pick mom dad).2.length = mom.length ∧
    ∀ e, e < mom.length →
      ((CNE.Crossover pick mom dad).1.getD e 0 = mom.getD e 0 ∧
       (CNE.Crossover pick mom dad).2.getD e 0 = dad.getD e 0) ∨
      ((CNE.Crossover pick mom dad).1.getD e 0 = dad.getD e 0 ∧
       (CNE.Crossover pick mom dad).2.getD e 0 = mom.getD e 0) := by
  refine ⟨by simp [CNE.Crossover], by simp [CNE.Crossover], fun e he => ?_⟩
  rw [CNE.Crossover]
  rw [getD_range_map _ _ _ _ he, getD_range_map _ _ _ _ he]
  cases h : pick e <;> simp [h]

/-- Witness for C5 at concrete parents. -/
theorem Crossover_elementwise_complementary_witness :
    (1 : ℕ) < ([(1 : ℚ), 2]).length ∧
    (((CNE.Crossover (fun e => decide (e % 2 = 0)) [(1 : ℚ), 2]
        [(3 : ℚ), 4]).1.getD 1 0 = ([(1 : ℚ), 2]).getD 1 0 ∧
      (CNE.Crossover (fun e => decide (e % 2 = 0)) [(1 : ℚ), 2]
        [(3 : ℚ), 4]).2.getD 1 0 = ([(3 : ℚ), 4]).getD 1 0) ∨
     ((CNE.Crossover (fun e => decide (e % 2 = 0)) [(1 : ℚ), 2]
        [(3 : ℚ), 4]).1.getD 1 0 = ([(3 : ℚ), 4]).getD 1 0 ∧
      (CNE.Crossover (fun e => decide (e % 2 = 0)) [(1 : ℚ), 2]
        [(3 : ℚ), 4]).2.getD 1 0 = ([(1 : ℚ), 2]).getD 1 0)) :=
  ⟨by decide,
   (Crossover_elementwise_complementary (fun e => decide (e % 2 = 0))
      [(1 : ℚ), 2] [(3 : ℚ), 4]).2.2 1 (by decide)⟩

/-- C9: with mutationProb 1 and mutationSize m nonnegative, one mutation
pass preserves the population size and moves every element of every
candidate by an amount in the interval from 0 to m. -/
theorem Mutate_one_pass_bounded (r : CNE.RandomSource) (hr : r.Valid)
    (m : ℚ) (hm : 0 ≤ m) (pop : List CNE.Candidate) :
    (CNE.Mutate 1 m r pop).length = pop.length ∧
    ∀ c e, c < pop.length → e < (pop.getD c []).length →
      0 ≤ ((CNE.Mutate 1 m r pop).getD c []).getD e 0 -
          (pop.getD c []).getD e 0 ∧
      ((CNE.Mutate 1 m r pop).getD c []).getD e 0 -
          (pop.getD c []).getD e 0 ≤ m := by
  refine ⟨by simp [CNE.Mutate], fun c e hc he => ?_⟩
  rw [CNE.Mutate, getD_range_map _ _ _ _ hc, CNE.MutateCandidate,
    getD_range_map _ _ _ _ he]
  rw [if_pos (hr.1 c e).2]
  have h0 := (hr.2 c e).1
  have h1 := (hr.2 c e).2
  constructor
  · have : 0 ≤ m * r.noise c e := mul_nonneg hm h0
    linarith
  · have : m * r.noise c e ≤ m * 1 := mul_le_mul_of_nonneg_left h1 hm
    linarith

/-- Witness for C9 at a concrete valid random source and population. -/
theorem Mutate_one_pass_bounded_witness :
    (CNE.Mutate 1 (1 / 2) ⟨fun _ _ => true, fun _ _ => 0, fun _ _ => 1 / 3,
        fun _ _ => 0⟩ [[(5 : ℚ)]]).length = 1 ∧
    (0 : ℕ) < 1 ∧
    0 ≤ ((CNE.Mutate 1 (1 / 2) ⟨fun _ _ => true, fun _ _ => 0,
        fun _ _ => 1 / 3, fun _ _ => 0⟩ [[(5 : ℚ)]]).getD 0 []).getD 0 0 -
        (([[(5 : ℚ)]]).getD 0 []).getD 0 0 := by
  have h := Mutate_one_pass_bounded
    ⟨fun _ _ => true, fun _ _ => 0, fun _ _ => 1 / 3, fun _ _ => 0⟩
    ⟨fun _ _ => by norm_num, fun _ _ => by norm_num⟩
    (1 / 2) (by norm_num) [[(5 : ℚ)]]
  exact ⟨h.1, by decide, (h.2 0 0 (by decide) (by decide)).1⟩

/-- C4: with populationSize below 4, Optimize fails with
InvalidConfiguration, leaves the caller's iterate unmodified, and never
calls the objective function: its outcome is the same for every objective. -/
theorem Optimize_invalid_population_size (cfg : CNE.Config)
    (h : cfg.populationSize < 4) (f g : CNE.Candidate → ℚ)
    (rng : ℕ → CNE.RandomSource) (iterate : CNE.Candidate) :
    CNE.Optimize cfg f rng iterate =
      (Except.error CNE.OptError.InvalidConfiguration, iterate) ∧
    CNE.Optimize cfg f rng iterate = CNE.Optimize cfg g rng iterate := by
  have hv : CNE.validConfig cfg = false := by
    have : ¬ (4 ≤ cfg.populationSize) := by omega
    simp [CNE.validConfig, this]
  constructor <;> simp [CNE.Optimize, hv]

/-- Witness for C4: population size 3 is rejected. -/
theorem Optimize_invalid_population_size_witness :
    (3 : ℕ) < 4 ∧
    CNE.Optimize ⟨3, 10, 1 / 10, 1 / 50, 1 / 5, 1 / 100⟩ (fun _ => 0)
        (fun _ => ⟨fun _ _ => true, fun _ _ => 0, fun _ _ => 0,
          fun _ _ => 0⟩) [(0 : ℚ)] =
      (Except.error CNE.OptError.InvalidConfiguration, [(0 : ℚ)]) :=
  ⟨by decide,
   (Optimize_invalid_population_size ⟨3, 10, 1 / 10, 1 / 50, 1 / 5, 1 / 100⟩
      (by decide) (fun _ => 0) (fun _ => 1)
      (fun _ => ⟨fun _ _ => true, fun _ _ => 0, fun _ _ => 0, fun _ _ => 0⟩)
      [(0 : ℚ)]).1⟩

/-- C8: numElite is computed once at the start of Optimize as the rounded
elite share, clamped to at least 2 and made even by decrementing an odd
value, and the loop receives that single value for the whole run: it is at
least 2, even, agrees with the rounded share when that share is already an
even number at least 2, loses exactly one when the share is odd and at least
2, is clamped to 2 when the share falls below 2, and Optimize hands the
generational loop exactly this value. -/
theorem computeNumElite_fixed_even_clamped (sp : ℚ) (ps : ℕ) :
    2 ≤ CNE.computeNumElite sp ps ∧
    CNE.computeNumElite sp ps % 2 = 0 ∧
    (2 ≤ (round (sp * ps)).toNat → (round (sp * ps)).toNat % 2 = 0 →
      CNE.computeNumElite sp ps = (round (sp * ps)).toNat) ∧
    (2 ≤ (round (sp * ps)).toNat → (round (sp * ps)).toNat % 2 = 1 →
      CNE.computeNumElite sp ps = (round (sp * ps)).toNat - 1) ∧
    ((round (sp * ps)).toNat < 2 → CNE.computeNumElite sp ps = 2) ∧
    (∀ cfg : CNE.Config, ∀ f rng iterate, CNE.validConfig cfg = true →
      (CNE.Optimize cfg f rng iterate).1 = Except.ok (CNE.cneLoop cfg
        (CNE.computeNumElite cfg.selectPercent cfg.populationSize) f rng
        cfg.maxGenerations 1
        (CNE.initialPopulation cfg.mutationSize ((rng 0).seed) iterate
          cfg.populationSize) none [] [])) := by
  refine ⟨?_, ?_, ?_, ?_, ?_, ?_⟩
  · simp only [CNE.computeNumElite]
    split <;> omega
  · simp only [CNE.computeNumElite]
    split <;> omega
  · intro h2 he
    simp only [CNE.computeNumElite]
    split <;> omega
  · intro h2 ho
    simp only [CNE.computeNumElite]
    split <;> omega
  · intro h2
    simp only [CNE.computeNumElite]
    split <;> omega
  · intro cfg f rng iterate hv
    simp [CNE.Optimize, hv]

/-- Witness for C8 at selectPercent one fifth, population 500. -/
theorem computeNumElite_fixed_even_clamped_witness :
    2 ≤ CNE.computeNumElite (1 / 5) 500 ∧
    CNE.computeNumElite (1 / 5) 500 % 2 = 0 ∧
    CNE.computeNumElite (1 / 5) 500 = 100 := by
  have h := computeNumElite_fixed_even_clamped (1 / 5) 500
  have hr : (round ((1 / 5 : ℚ) * (500 : ℕ))).toNat = 100 := by
    norm_num
    rfl
  refine ⟨h.1, h.2.1, ?_⟩
  have := h.2.2.1 (by rw [hr]; norm_num) (by rw [hr])
  rw [this, hr]

/-! Best-so-far tracking: the fold invariant behind C1. -/

lemma updateBest_cons (f : CNE.Candidate → ℚ) (c : CNE.Candidate)
    (pop : List CNE.Candidate) (b : Option (ℚ × CNE.Candidate)) :
    CNE.updateBest f (c :: pop) b =
      CNE.updateBest f pop
        (match b with
         | none => some (f c, c)
         | some p => if f c < p.1 then some (f c, c) else some p) := rfl

lemma updateBest_isBest (f : CNE.Candidate → ℚ) (pop : List CNE.Candidate) :
    ∀ (b : Option (ℚ × CNE.Candidate)) (obs : List ℚ),
      CNE.IsBest f obs b →
      CNE.IsBest f (obs ++ pop.map f) (CNE.updateBest f pop b) := by
  induction pop with
  | nil =>
    intro b obs h
    simpa [CNE.updateBest] using h
  | cons c pop ih =>
    intro b obs h
    rw [updateBest_cons]
    have hmap : obs ++ (c :: pop).map f = (obs ++ [f c]) ++ pop.map f := by
      simp
    rw [hmap]
    apply ih
    cases b with
    | none =>
      have hobs : obs = [] := h
      subst hobs
      exact ⟨rfl, by simp, by simp⟩
    | some p =>
      obtain ⟨hf, hmem, hle⟩ := h
      by_cases hlt : f c < p.1
      · simp only [if_pos hlt]
        refine ⟨rfl, by simp, fun x hx => ?_⟩
        rcases List.mem_append.1 hx with hx | hx
        · exact le_of_lt (lt_of_lt_of_le hlt (hle x hx))
        · simp only [List.mem_singleton] at hx
          exact le_of_eq hx.symm
      · simp only [if_neg hlt]
        refine ⟨hf, List.mem_append_left _ hmem, fun x hx => ?_⟩
        rcases List.mem_append.1 hx with hx | hx
        · exact hle x hx
        · simp only [List.mem_singleton] at hx
          subst hx
          exact le_of_not_lt hlt

lemma cneLoop_isBest (cfg : CNE.Config) (ne : ℕ) (f : CNE.Candidate → ℚ)
    (rng : ℕ → CNE.RandomSource) :
    ∀ (fuel gen : ℕ) (pop : List CNE.Candidate)
      (best : Option (ℚ × CNE.Candidate)) (obs hist : List ℚ),
      CNE.IsBest f obs best →
      CNE.IsBest f
        (CNE.cneLoop cfg ne f rng fuel gen pop best obs hist).observed
        (CNE.cneLoop cfg ne f rng fuel gen pop best obs hist).best := by
  intro fuel
  induction fuel with
  | zero =>
    intro gen pop best obs hist h
    simpa [CNE.cneLoop] using h
  | succ k ih =>
    intro gen pop best obs hist h
    simp only [CNE.cneLoop]
    by_cases h1 : CNE.tolCheck cfg.tolerance (CNE.updateBest f pop best) = true
    · simp only [h1, if_true]
      exact updateBest_isBest f pop best obs h
    · by_cases h2 : k = 0
      · simp only [h1, h2, if_false, if_true]
        exact updateBest_isBest f pop best obs h
      · simp only [h1, h2, if_false]
        exact ih (gen + 1) _ _ _ _ (updateBest_isBest f pop best obs h)

/-- C1: for every successful run, the returned best pair carries the lowest
fitness value observed across all generations (it was observed, and no
observed fitness is lower), the recorded best candidate achieves exactly
that fitness under the objective, and the returned iterate is that
candidate. -/
theorem Optimize_returns_best_observed (cfg : CNE.Config)
    (f : CNE.Candidate → ℚ) (rng : ℕ → CNE.RandomSource)
    (iterate : CNE.Candidate) (res : CNE.RunResult)
    (hres : (CNE.Optimize cfg f rng iterate).1 = Except.ok res)
    (bf : ℚ) (c : CNE.Candidate) (hbest : res.best = some (bf, c)) :
    f c = bf ∧ bf ∈ res.observed ∧ (∀ x ∈ res.observed, bf ≤ x) ∧
    (CNE.Optimize cfg f rng iterate).2 = c := by
  by_cases hv : CNE.validConfig cfg = true
  · simp only [CNE.Optimize, hv, if_true, Except.ok.injEq] at hres ⊢
    subst hres
    have hrun := cneLoop_isBest cfg
      (CNE.computeNumElite cfg.selectPercent cfg.populationSize) f rng
      cfg.maxGenerations 1
      (CNE.initialPopulation cfg.mutationSize ((rng 0).seed) iterate
        cfg.populationSize) none [] [] rfl
    rw [hbest] at hrun
    obtain ⟨h1, h2, h3⟩ := hrun
    exact ⟨h1, h2, h3, by simp [hbest]⟩
  · simp [CNE.Optimize, hv] at hres

/-! Termination lemmas behind C2 and C3. -/

lemma updateBest_zero_fix (pop : List CNE.Candidate) :
    ∀ c0 : CNE.Candidate,
      CNE.updateBest (fun _ => (0 : ℚ)) pop (some (0, c0)) = some (0, c0) := by
  induction pop with
  | nil => intro c0; rfl
  | cons c pop ih =>
    intro c0
    rw [updateBest_cons]
    simp only [lt_irrefl, if_false]
    exact ih c0

lemma updateBest_zero_of_ne_nil (pop : List CNE.Candidate) (h : pop ≠ []) :
    ∃ c : CNE.Candidate,
      CNE.updateBest (fun _ => (0 : ℚ)) pop none = some (0, c) := by
  cases pop with
  | nil => exact absurd rfl h
  | cons c pop =>
    refine ⟨c, ?_⟩
    rw [updateBest_cons]
    exact updateBest_zero_fix pop c

lemma tolCheck_neg (tol : ℚ) (h : tol < 0)
    (b : Option (ℚ × CNE.Candidate)) : CNE.tolCheck tol b = false := by
  cases b with
  | none => rfl
  | some p => simp [CNE.tolCheck, not_le.2 h]

/-- C2: whenever the tolerance is non-negative and the tracked best fitness
falls to the tolerance or below at a generation's termination check, the
loop stops there with ConvergedByTolerance; in particular a run with
tolerance one hundredth and a constantly zero objective converges after
exactly one generation with best fitness zero. -/
theorem cne_tolerance_termination :
    (∀ (cfg : CNE.Config) (ne : ℕ) (f : CNE.Candidate → ℚ)
       (rng : ℕ → CNE.RandomSource) (fuel gen : ℕ)
       (pop : List CNE.Candidate) (best : Option (ℚ × CNE.Candidate))
       (obs hist : List ℚ),
       CNE.tolCheck cfg.tolerance (CNE.updateBest f pop best) = true →
       (CNE.cneLoop cfg ne f rng (fuel + 1) gen pop best obs hist).status =
         CNE.Status.ConvergedByTolerance ∧
       (CNE.cneLoop cfg ne f rng (fuel + 1) gen pop best obs hist).generations
         = gen) ∧
    (∀ (cfg : CNE.Config) (rng : ℕ → CNE.RandomSource)
       (iterate : CNE.Candidate) (res : CNE.RunResult),
       cfg.tolerance = 1 / 100 → CNE.validConfig cfg = true →
       1 ≤ cfg.maxGenerations →
       (CNE.Optimize cfg (fun _ => 0) rng iterate).1 = Except.ok res →
       res.status = CNE.Status.ConvergedByTolerance ∧
       res.generations = 1 ∧ CNE.bestVal res.best = some 0) := by
  constructor
  · intro cfg ne f rng fuel gen pop best obs hist h
    simp [CNE.cneLoop, h]
  · intro cfg rng iterate res htol hv hmax hres
    simp only [CNE.Optimize, hv, if_true, Except.ok.injEq] at hres
    subst hres
    obtain ⟨k, hk⟩ : ∃ k, cfg.maxGenerations = k + 1 :=
      ⟨cfg.maxGenerations - 1, by omega⟩
    have hps : 4 ≤ cfg.populationSize := by
      have h' := hv
      simp only [CNE.validConfig, Bool.and_eq_true, decide_eq_true_eq] at h'
      tauto
    have hlen : (CNE.initialPopulation cfg.mutationSize ((rng 0).seed)
        iterate cfg.populationSize).length = cfg.populationSize := by
      simp [CNE.initialPopulation]
    have hnil : CNE.initialPopulation cfg.mutationSize ((rng 0).seed)
        iterate cfg.populationSize ≠ [] := by
      intro hcon
      rw [hcon] at hlen
      simp only [List.length_nil] at hlen
      omega
    obtain ⟨c, hc⟩ := updateBest_zero_of_ne_nil _ hnil
    have htc : CNE.tolCheck cfg.tolerance
        (CNE.updateBest (fun _ => (0 : ℚ))
          (CNE.initialPopulation cfg.mutationSize ((rng 0).seed) iterate
            cfg.populationSize) none) = true := by
      rw [hc, htol]
      simp [CNE.tolCheck]
    rw [hk]
    refine ⟨?_, ?_, ?_⟩ <;> simp only [CNE.cneLoop, htc, if_true]
    simp [hc, CNE.bestVal]

/-- Witness for C1 at a one-generation concrete run. -/
theorem Optimize_returns_best_observed_witness :
    (CNE.Optimize ⟨4, 1, 1, 0, 1, -1⟩ (fun _ => 0)
        (fun _ => ⟨fun _ _ => true, fun _ _ => 0, fun _ _ => 0,
          fun _ _ => 0⟩) [(0 : ℚ)]).1 =
      Except.ok ⟨CNE.Status.MaxGenerationsReached, some (0, [0]), 1,
        [0, 0, 0, 0], [0]⟩ ∧
    (0 : ℚ) ∈ ([0, 0, 0, 0] : List ℚ) ∧
    (CNE.Optimize ⟨4, 1, 1, 0, 1, -1⟩ (fun _ => 0)
        (fun _ => ⟨fun _ _ => true, fun _ _ => 0, fun _ _ => 0,
          fun _ _ => 0⟩) [(0 : ℚ)]).2 = [0] := by
  have h := Optimize_returns_best_observed ⟨4, 1, 1, 0, 1, -1⟩ (fun _ => 0)
    (fun _ => ⟨fun _ _ => true, fun _ _ => 0, fun _ _ => 0, fun _ _ => 0⟩)
    [(0 : ℚ)]
    ⟨CNE.Status.MaxGenerationsReached, some (0, [0]), 1, [0, 0, 0, 0], [0]⟩
    (by rfl) 0 [0] rfl
  exact ⟨by rfl, h.2.1, h.2.2.2⟩

/-- Witness for C2: the check passes at a concrete generation, and the
concrete constantly zero run converges at generation one. -/
theorem cne_tolerance_termination_witness :
    CNE.tolCheck ((⟨4, 5, 1, 0, 1, mkRat 1 100⟩ : CNE.Config)).tolerance
      (CNE.updateBest (fun _ => (0 : ℚ)) [[(0 : ℚ)]] none) = true ∧
    (CNE.cneLoop ⟨4, 5, 1, 0, 1, mkRat 1 100⟩ 2 (fun _ => 0)
      (fun _ => ⟨fun _ _ => true, fun _ _ => 0, fun _ _ => 0,
        fun _ _ => 0⟩) (0 + 1) 1 [[(0 : ℚ)]] none [] []).status =
      CNE.Status.ConvergedByTolerance ∧
    (CNE.Optimize ⟨4, 5, 1, 0, 1, mkRat 1 100⟩ (fun _ => 0)
      (fun _ => ⟨fun _ _ => true, fun _ _ => 0, fun _ _ => 0,
        fun _ _ => 0⟩) [(0 : ℚ)]).1 =
      Except.ok ⟨CNE.Status.ConvergedByTolerance, some (0, [0]), 1,
        [0, 0, 0, 0], [0]⟩ ∧
    (⟨CNE.Status.ConvergedByTolerance, some (0, [0]), 1, [0, 0, 0, 0],
      [0]⟩ : CNE.RunResult).status = CNE.Status.ConvergedByTolerance ∧
    (⟨CNE.Status.ConvergedByTolerance, some (0, [0]), 1, [0, 0, 0, 0],
      [0]⟩ : CNE.RunResult).generations = 1 ∧
    CNE.bestVal (⟨CNE.Status.ConvergedByTolerance, some (0, [0]), 1,
      [0, 0, 0, 0], [0]⟩ : CNE.RunResult).best = some 0 := by
  have htc : CNE.tolCheck ((⟨4, 5, 1, 0, 1, mkRat 1 100⟩ :
      CNE.Config)).tolerance
      (CNE.updateBest (fun _ => (0 : ℚ)) [[(0 : ℚ)]] none) = true := by
    decide
  have hgen := cne_tolerance_termination.1 ⟨4, 5, 1, 0, 1, mkRat 1 100⟩ 2
    (fun _ => 0)
    (fun _ => ⟨fun _ _ => true, fun _ _ => 0, fun _ _ => 0, fun _ _ => 0⟩)
    0 1 [[(0 : ℚ)]] none [] [] htc
  have hconc := cne_tolerance_termination.2 ⟨4, 5, 1, 0, 1, mkRat 1 100⟩
    (fun _ => ⟨fun _ _ => true, fun _ _ => 0, fun _ _ => 0, fun _ _ => 0⟩)
    [(0 : ℚ)]
    ⟨CNE.Status.ConvergedByTolerance, some (0, [0]), 1, [0, 0, 0, 0], [0]⟩
    (by rw [Rat.mkRat_eq_div]; norm_num) (by decide) (by decide) rfl
  exact ⟨htc, hgen.1, rfl, hconc.1, hconc.2.1, hconc.2.2⟩

/-! Monotonicity of the tracked best, behind C6. -/

lemma updateBest_mono (f : CNE.Candidate → ℚ) (pop : List CNE.Candidate) :
    ∀ p : ℚ × CNE.Candidate, ∃ q : ℚ × CNE.Candidate,
      CNE.updateBest f pop (some p) = some q ∧ q.1 ≤ p.1 := by
  induction pop with
  | nil => intro p; exact ⟨p, rfl, le_refl _⟩
  | cons c pop ih =>
    intro p
    rw [updateBest_cons]
    by_cases h : f c < p.1
    · simp only [if_pos h]
      obtain ⟨q, hq, hle⟩ := ih (f c, c)
      exact ⟨q, hq, le_trans hle (le_of_lt h)⟩
    · simp only [if_neg h]
      exact ih p

lemma chain_ge_append_singleton (l : List ℚ) (a : ℚ)
    (hc : l.Chain' (fun x y => y ≤ x)) (hle : ∀ x ∈ l, a ≤ x) :
    (l ++ [a]).Chain' (fun x y => y ≤ x) := by
  rw [List.chain'_append]
  refine ⟨hc, List.chain'_singleton a, fun x hx y hy => ?_⟩
  simp only [List.head?_cons, Option.mem_def, Option.some.injEq] at hy
  subst hy
  exact hle x (List.mem_of_mem_getLast? hx)

lemma hist_step (f : CNE.Candidate → ℚ) (pop : List CNE.Candidate)
    (best : Option (ℚ × CNE.Candidate)) (hist : List ℚ)
    (hc : hist.Chain' (fun x y => y ≤ x))
    (hle : ∀ p : ℚ × CNE.Candidate, best = some p → ∀ x ∈ hist, p.1 ≤ x)
    (hn : best = none → hist = []) :
    (hist ++ (CNE.bestVal (CNE.updateBest f pop best)).toList).Chain'
      (fun x y => y ≤ x) ∧
    (∀ p : ℚ × CNE.Candidate, CNE.updateBest f pop best = some p →
      ∀ x ∈ hist ++ (CNE.bestVal (CNE.updateBest f pop best)).toList,
        p.1 ≤ x) ∧
    (CNE.updateBest f pop best = none →
      hist ++ (CNE.bestVal (CNE.updateBest f pop best)).toList = []) := by
  cases best with
  | some p =>
    obtain ⟨q, hq, hqle⟩ := updateBest_mono f pop p
    rw [hq]
    have hmem : ∀ x ∈ hist, q.1 ≤ x :=
      fun x hx => le_trans hqle (hle p rfl x hx)
    refine ⟨chain_ge_append_singleton hist q.1 hc hmem, ?_, ?_⟩
    · intro p' hp' x hx
      rw [Option.some.injEq] at hp'
      subst hp'
      rcases List.mem_append.1 hx with hx | hx
      · exact hmem x hx
      · simp [CNE.bestVal] at hx
        exact le_of_eq hx.symm
    · intro hcon
      exact absurd hcon (by simp)
  | none =>
    have hhist : hist = [] := hn rfl
    subst hhist
    cases hb : CNE.updateBest f pop none with
    | none => simp [CNE.bestVal]
    | some q =>
      refine ⟨?_, ?_, ?_⟩
      · simp [CNE.bestVal]
      · intro p' hp' x hx
        rw [Option.some.injEq] at hp'
        subst hp'
        simp [CNE.bestVal] at hx
        exact le_of_eq hx.symm
      · intro hcon
        exact absurd hcon (by simp)

lemma cneLoop_history (cfg : CNE.Config) (ne : ℕ) (f : CNE.Candidate → ℚ)
    (rng : ℕ → CNE.RandomSource) :
    ∀ (fuel gen : ℕ) (pop : List CNE.Candidate)
      (best : Option (ℚ × CNE.Candidate)) (obs hist : List ℚ),
      hist.Chain' (fun x y => y ≤ x) →
      (∀ p : ℚ × CNE.Candidate, best = some p → ∀ x ∈ hist, p.1 ≤ x) →
      (best = none → hist = []) →
      (CNE.cneLoop cfg ne f rng fuel gen pop best obs hist).history.Chain'
        (fun x y => y ≤ x) := by
  intro fuel
  induction fuel with
  | zero =>
    intro gen pop best obs hist hc hle hn
    simpa [CNE.cneLoop] using hc
  | succ k ih =>
    intro gen pop best obs hist hc hle hn
    obtain ⟨hc1, hle1, hn1⟩ := hist_step f pop best hist hc hle hn
    simp only [CNE.cneLoop]
    by_cases h1 : CNE.tolCheck cfg.tolerance (CNE.updateBest f pop best) = true
    · simp only [h1, if_true]
      exact hc1
    · by_cases h2 : k = 0
      · simp only [h1, h2, if_false, if_true]
        exact hc1
      · simp only [h1, h2, if_false]
        exact ih (gen + 1) _ _ _ _ hc1 hle1 hn1

/-- C6: in every successful run the tracked best fitness is non-increasing
across generations: the recorded best-so-far history forms a chain in which
each later entry is at most the one before it, for every objective function
and every random source. -/
theorem bestFitness_nonincreasing (cfg : CNE.Config)
    (f : CNE.Candidate → ℚ) (rng : ℕ → CNE.RandomSource)
    (iterate : CNE.Candidate) (res : CNE.RunResult)
    (hres : (CNE.Optimize cfg f rng iterate).1 = Except.ok res) :
    res.history.Chain' (fun x y => y ≤ x) := by
  by_cases hv : CNE.validConfig cfg = true
  · simp only [CNE.Optimize, hv, if_true, Except.ok.injEq] at hres
    subst hres
    exact cneLoop_history cfg
      (CNE.computeNumElite cfg.selectPercent cfg.populationSize) f rng
      cfg.maxGenerations 1
      (CNE.initialPopulation cfg.mutationSize ((rng 0).seed) iterate
        cfg.populationSize) none [] [] List.chain'_nil
      (fun p hp => by cases hp) (fun _ => rfl)
  · simp [CNE.Optimize, hv] at hres

/-- Witness for C6 at a concrete run. -/
theorem bestFitness_nonincreasing_witness :
    (CNE.Optimize ⟨4, 1, 1, 0, 1, -1⟩ (fun _ => 0)
        (fun _ => ⟨fun _ _ => true, fun _ _ => 0, fun _ _ => 0,
          fun _ _ => 0⟩) [(0 : ℚ)]).1 =
      Except.ok ⟨CNE.Status.MaxGenerationsReached, some (0, [0]), 1,
        [0, 0, 0, 0], [0]⟩ ∧
    (⟨CNE.Status.MaxGenerationsReached, some (0, [0]), 1, [0, 0, 0, 0],
      [0]⟩ : CNE.RunResult).history.Chain' (fun x y => y ≤ x) :=
  ⟨by rfl,
   bestFitness_nonincreasing ⟨4, 1, 1, 0, 1, -1⟩ (fun _ => 0)
     (fun _ => ⟨fun _ _ => true, fun _ _ => 0, fun _ _ => 0, fun _ _ => 0⟩)
     [(0 : ℚ)]
     ⟨CNE.Status.MaxGenerationsReached, some (0, [0]), 1, [0, 0, 0, 0], [0]⟩
     (by rfl)⟩

/-! Partition and size lemmas behind C7. -/

lemma ReproduceStep_length (r : CNE.RandomSource) (rank : List ℕ)
    (pop : List CNE.Candidate) (n : ℕ) (q : List CNE.Candidate) (k : ℕ) :
    (CNE.ReproduceStep r rank pop n q k).length = q.length := by
  simp [CNE.ReproduceStep]

lemma Reproduce_length (r : CNE.RandomSource) (ne : ℕ)
    (pop : List CNE.Candidate) (fv : List ℚ) :
    (CNE.Reproduce r ne pop fv).length = pop.length := by
  unfold CNE.Reproduce
  have key : ∀ (l : List ℕ) (q : List CNE.Candidate),
      (l.foldl (CNE.ReproduceStep r (CNE.RankIndex fv) pop pop.length)
        q).length = q.length := by
    intro l
    induction l with
    | nil => intro q; rfl
    | cons a l ih =>
      intro q
      rw [List.foldl_cons, ih, ReproduceStep_length]
  exact key _ pop

lemma Mutate_length (prob size : ℚ) (r : CNE.RandomSource)
    (pop : List CNE.Candidate) :
    (CNE.Mutate prob size r pop).length = pop.length := by
  simp [CNE.Mutate]

lemma NextGeneration_length (cfg : CNE.Config) (ne : ℕ)
    (r : CNE.RandomSource) (pop : List CNE.Candidate) (fv : List ℚ) :
    (CNE.NextGeneration cfg ne r pop fv).length = pop.length := by
  rw [CNE.NextGeneration, Mutate_length, Reproduce_length]

lemma RankIndex_perm (fv : List ℚ) :
    (CNE.RankIndex fv).Perm (List.range fv.length) :=
  List.perm_insertionSort _ _

/-- C7: the Selector's RankIndex partitions the population indices: the
first numElite entries and the remaining entries have exactly numElite and
populationSize minus numElite members, are disjoint, and together cover
exactly the index range below the population size; moreover one population
transition preserves the population size, and the initial population holds
exactly populationSize candidates. -/
theorem selector_partition_invariant (fv : List ℚ) (numElite : ℕ)
    (h : numElite ≤ fv.length) :
    ((CNE.RankIndex fv).take numElite).length = numElite ∧
    ((CNE.RankIndex fv).drop numElite).length = fv.length - numElite ∧
    ((CNE.RankIndex fv).take numElite).Disjoint
      ((CNE.RankIndex fv).drop numElite) ∧
    (∀ i : ℕ, (i ∈ (CNE.RankIndex fv).take numElite ∨
        i ∈ (CNE.RankIndex fv).drop numElite) ↔ i < fv.length) ∧
    (∀ (cfg : CNE.Config) (ne : ℕ) (r : CNE.RandomSource)
       (pop : List CNE.Candidate) (fv2 : List ℚ),
       (CNE.NextGeneration cfg ne r pop fv2).length = pop.length) ∧
    (∀ (size : ℚ) (seed : ℕ → ℕ → ℚ) (it : CNE.Candidate) (n : ℕ),
       (CNE.initialPopulation size seed it n).length = n) := by
  have hperm := RankIndex_perm fv
  have hlenr : (CNE.RankIndex fv).length = fv.length := by
    rw [hperm.length_eq, List.length_range]
  have hnodup : (CNE.RankIndex fv).Nodup :=
    hperm.nodup_iff.2 (List.nodup_range _)
  have hsplit : (CNE.RankIndex fv).take numElite ++
      (CNE.RankIndex fv).drop numElite = CNE.RankIndex fv :=
    List.take_append_drop _ _
  refine ⟨?_, ?_, ?_, ?_, ?_, ?_⟩
  · rw [List.length_take, hlenr]
    omega
  · rw [List.length_drop, hlenr]
  · have := List.nodup_append.1 (by rw [hsplit]; exact hnodup)
    exact this.2.2
  · intro i
    constructor
    · intro hi
      have : i ∈ CNE.RankIndex fv := by
        rw [← hsplit]
        exact List.mem_append.2 hi
      rw [hperm.mem_iff, List.mem_range] at this
      exact this
    · intro hi
      have : i ∈ CNE.RankIndex fv := by
        rw [hperm.mem_iff, List.mem_range]
        exact hi
      rw [← hsplit] at this
      exact List.mem_append.1 this
  · exact NextGeneration_length
  · intro size seed it n
    simp [CNE.initialPopulation]

/-- Witness for C7 at a concrete fitness vector and elite count. -/
theorem selector_partition_invariant_witness :
    (2 : ℕ) ≤ ([(3 : ℚ), 1, 2, 1]).length ∧
    ((CNE.RankIndex [(3 : ℚ), 1, 2, 1]).take 2).length = 2 ∧
    ((CNE.RankIndex [(3 : ℚ), 1, 2, 1]).drop 2).length = 2 ∧
    ((CNE.RankIndex [(3 : ℚ), 1, 2, 1]).take 2).Disjoint
      ((CNE.RankIndex [(3 : ℚ), 1, 2, 1]).drop 2) := by
  have h := selector_partition_invariant [(3 : ℚ), 1, 2, 1] 2 (by decide)
  exact ⟨by decide, h.1, h.2.1, h.2.2.1⟩

/-! The reproduce-slot availability check and the corrected C3. -/

lemma cneLoopE_maxgen (cfg : CNE.Config) (ne : ℕ) (f : CNE.Candidate → ℚ)
    (rng : ℕ → CNE.RandomSource) (hneg : cfg.tolerance < 0) :
    ∀ (fuel gen : ℕ) (pop : List CNE.Candidate)
      (best : Option (ℚ × CNE.Candidate)) (obs hist : List ℚ),
      ne ≤ pop.length - ne →
      ∃ res : CNE.RunResult,
        CNE.cneLoopE cfg ne f rng (fuel + 1) gen pop best obs hist =
          Except.ok res ∧
        res.status = CNE.Status.MaxGenerationsReached ∧
        res.generations = gen + fuel := by
  intro fuel
  induction fuel with
  | zero =>
    intro gen pop best obs hist _hslots
    refine ⟨⟨CNE.Status.MaxGenerationsReached, CNE.updateBest f pop best,
      gen, obs ++ pop.map f,
      hist ++ (CNE.bestVal (CNE.updateBest f pop best)).toList⟩, ?_, rfl,
      rfl⟩
    simp [CNE.cneLoopE, tolCheck_neg _ hneg]
  | succ k ih =>
    intro gen pop best obs hist hslots
    have hrep : CNE.ReproduceE (rng gen) ne pop (pop.map f) =
        Except.ok (CNE.Reproduce (rng gen) ne pop (pop.map f)) := by
      simp [CNE.ReproduceE, hslots]
    have hunf : CNE.cneLoopE cfg ne f rng (k + 1 + 1) gen pop best obs hist =
        CNE.cneLoopE cfg ne f rng (k + 1) (gen + 1)
          (CNE.Mutate cfg.mutationProb cfg.mutationSize (rng gen)
            (CNE.Reproduce (rng gen) ne pop (pop.map f)))
          (CNE.updateBest f pop best) (obs ++ pop.map f)
          (hist ++ (CNE.bestVal (CNE.updateBest f pop best)).toList) := by
      simp [CNE.cneLoopE, tolCheck_neg _ hneg, CNE.NextGenerationE, hrep]
    have hlen : (CNE.Mutate cfg.mutationProb cfg.mutationSize (rng gen)
        (CNE.Reproduce (rng gen) ne pop (pop.map f))).length =
        pop.length := by
      rw [Mutate_length, Reproduce_length]
    obtain ⟨res, hres, hstat, hgen⟩ := ih (gen + 1)
      (CNE.Mutate cfg.mutationProb cfg.mutationSize (rng gen)
        (CNE.Reproduce (rng gen) ne pop (pop.map f)))
      (CNE.updateBest f pop best) (obs ++ pop.map f)
      (hist ++ (CNE.bestVal (CNE.updateBest f pop best)).toList)
      (by rw [hlen]; exact hslots)
    refine ⟨res, ?_, hstat, ?_⟩
    · rw [hunf]
      exact hres
    · rw [hgen]
      omega

/-- Counterexample for C3 as frozen: the configuration with selectPercent 1
and populationSize 4 is valid, has tolerance minus one and a budget of ten
generations, yet the run does not reach ten generations: numElite is 4
while no dropout slot is available, so the first reproduce step aborts with
the internal consistency error the spec mandates. -/
theorem Optimize_maxgen_counterexample :
    CNE.validConfig ⟨4, 10, 1, 0, 1, -1⟩ = true ∧
    (CNE.OptimizeE ⟨4, 10, 1, 0, 1, -1⟩ (fun _ => 0)
        (fun _ => ⟨fun _ _ => true, fun _ _ => 0, fun _ _ => 0,
          fun _ _ => 0⟩) [(0 : ℚ)]).1 =
      Except.error CNE.OptError.InternalInconsistency ∧
    ¬ ∃ res : CNE.RunResult,
        (CNE.OptimizeE ⟨4, 10, 1, 0, 1, -1⟩ (fun _ => 0)
          (fun _ => ⟨fun _ _ => true, fun _ _ => 0, fun _ _ => 0,
            fun _ _ => 0⟩) [(0 : ℚ)]).1 = Except.ok res ∧
        res.status = CNE.Status.MaxGenerationsReached ∧
        res.generations = 10 := by
  have hne : CNE.computeNumElite 1 4 = 4 := by
    have h4 : (round ((1 : ℚ) * ((4 : ℕ) : ℚ))).toNat = 4 := by
      norm_num
      rfl
    simp only [CNE.computeNumElite, h4]
    norm_num
  have hv : CNE.validConfig ⟨4, 10, 1, 0, 1, -1⟩ = true := by decide
  have hmain : (CNE.OptimizeE ⟨4, 10, 1, 0, 1, -1⟩ (fun _ => 0)
      (fun _ => ⟨fun _ _ => true, fun _ _ => 0, fun _ _ => 0,
        fun _ _ => 0⟩) [(0 : ℚ)]).1 =
      Except.error CNE.OptError.InternalInconsistency := by
    simp only [CNE.OptimizeE, hv, if_true]
    rw [hne]
    rfl
  refine ⟨hv, hmain, ?_⟩
  rintro ⟨res, hres, -, -⟩
  rw [hmain] at hres
  exact absurd hres (by simp)

/-- C3 amended: with tolerance minus one the tolerance condition is
disabled, so for every objective function and every random source a valid
run with a budget of ten generations whose elite count leaves enough
dropout slots (twice numElite at most populationSize) performs exactly ten
generations and stops with MaxGenerationsReached; a slot-starved valid
configuration instead aborts with the internal consistency error, as the
counterexample shows. -/
theorem OptimizeE_maxgen_reached (cfg : CNE.Config) (f : CNE.Candidate → ℚ)
    (rng : ℕ → CNE.RandomSource) (iterate : CNE.Candidate)
    (htol : cfg.tolerance = -1) (hmax : cfg.maxGenerations = 10)
    (hv : CNE.validConfig cfg = true)
    (hslots : 2 * CNE.computeNumElite cfg.selectPercent cfg.populationSize ≤
      cfg.populationSize) :
    ∃ res : CNE.RunResult,
      (CNE.OptimizeE cfg f rng iterate).1 = Except.ok res ∧
      res.status = CNE.Status.MaxGenerationsReached ∧
      res.generations = 10 := by
  have hneg : cfg.tolerance < 0 := by rw [htol]; norm_num
  have hlen0 : (CNE.initialPopulation cfg.mutationSize ((rng 0).seed)
      iterate cfg.populationSize).length = cfg.populationSize := by
    simp [CNE.initialPopulation]
  obtain ⟨res, hres, hstat, hgen⟩ := cneLoopE_maxgen cfg
    (CNE.computeNumElite cfg.selectPercent cfg.populationSize) f rng hneg
    9 1 (CNE.initialPopulation cfg.mutationSize ((rng 0).seed) iterate
      cfg.populationSize) none [] [] (by rw [hlen0]; omega)
  have h10 : cfg.maxGenerations = 9 + 1 := by omega
  refine ⟨res, ?_, hstat, by rw [hgen]⟩
  simp only [CNE.OptimizeE, hv, if_true]
  rw [h10, hres]

/-- Witness for the amended C3 at a concrete slot-sufficient
configuration. -/
theorem OptimizeE_maxgen_reached_witness :
    ((⟨4, 10, 1, 0, mkRat 1 2, -1⟩ : CNE.Config).tolerance = -1) ∧
    ((⟨4, 10, 1, 0, mkRat 1 2, -1⟩ : CNE.Config).maxGenerations = 10) ∧
    CNE.validConfig ⟨4, 10, 1, 0, mkRat 1 2, -1⟩ = true ∧
    2 * CNE.computeNumElite (mkRat 1 2) 4 ≤ 4 ∧
    ∃ res : CNE.RunResult,
      (CNE.OptimizeE ⟨4, 10, 1, 0, mkRat 1 2, -1⟩ (fun _ => 0)
        (fun _ => ⟨fun _ _ => true, fun _ _ => 0, fun _ _ => 0,
          fun _ _ => 0⟩) [(0 : ℚ)]).1 = Except.ok res ∧
      res.status = CNE.Status.MaxGenerationsReached ∧
      res.generations = 10 := by
  have hcne : CNE.computeNumElite (mkRat 1 2) 4 = 2 := by
    have hr : (round ((mkRat 1 2 : ℚ) * ((4 : ℕ) : ℚ))).toNat = 2 := by
      rw [Rat.mkRat_eq_div]
      norm_num
      rfl
    simp only [CNE.computeNumElite, hr]
    norm_num
  have hslots : 2 * CNE.computeNumElite (mkRat 1 2) 4 ≤ 4 := by
    rw [hcne]
  exact ⟨rfl, rfl, by decide, hslots,
    OptimizeE_maxgen_reached ⟨4, 10, 1, 0, mkRat 1 2, -1⟩ (fun _ => 0)
      (fun _ => ⟨fun _ _ => true, fun _ _ => 0, fun _ _ => 0,
        fun _ _ => 0⟩) [(0 : ℚ)] rfl rfl (by decide) hslots⟩

/-! Non-negativity of the AdaGrad squared-gradient accumulator, behind C10. -/

lemma adaGradFold_sq_nonneg {rows cols : ℕ} (epsilon : ℝ) :
    ∀ (steps : List (ℝ × (Fin rows → Fin cols → ℝ)))
      (st : AdaGradState rows cols),
      (∀ i j, 0 ≤ st.2 i j) →
      ∀ i j, 0 ≤ (steps.foldl
        (fun st sg => adaGradUpdate epsilon sg.1 st sg.2) st).2 i j := by
  intro steps
  induction steps with
  | nil => intro st h i j; exact h i j
  | cons sg steps ih =>
    intro st h i j
    rw [List.foldl_cons]
    apply ih
    intro a b
    have hupd : (adaGradUpdate epsilon sg.1 st sg.2).2 a b =
        st.2 a b + sg.2 a b * sg.2 a b := rfl
    rw [hupd]
    have h1 := mul_self_nonneg (sg.2 a b)
    have h2 := h a b
    linarith

/-- C10: the squared gradient accumulator starts at zero, each Update only
adds the elementwise square of the gradient to it, so after any sequence of
Update calls every entry is non-negative, the square root argument is
well-defined, and with positive epsilon the divisor of the update step is
strictly positive and hence never zero. -/
theorem adaGrad_no_division_by_zero {rows cols : ℕ} (epsilon : ℝ)
    (heps : 0 < epsilon) (iterate0 : Fin rows → Fin cols → ℝ)
    (steps : List (ℝ × (Fin rows → Fin cols → ℝ))) :
    (∀ i j, adaGradInitialSquared rows cols i j = 0) ∧
    (∀ (stepSize : ℝ) (st : AdaGradState rows cols)
       (gradient : Fin rows → Fin cols → ℝ) (i : Fin rows) (j : Fin cols),
       (adaGradUpdate epsilon stepSize st gradient).2 i j =
         st.2 i j + gradient i j * gradient i j) ∧
    (∀ i j, 0 ≤ (adaGradRun epsilon iterate0 steps).2 i j) ∧
    (∀ i j, 0 < Real.sqrt ((adaGradRun epsilon iterate0 steps).2 i j) +
        epsilon) ∧
    (∀ i j, Real.sqrt ((adaGradRun epsilon iterate0 steps).2 i j) +
        epsilon ≠ 0) := by
  have hnn : ∀ i j, 0 ≤ (adaGradRun epsilon iterate0 steps).2 i j := by
    intro i j
    exact adaGradFold_sq_nonneg epsilon steps
      (iterate0, adaGradInitialSquared rows cols) (fun _ _ => le_refl 0) i j
  have hpos : ∀ i j,
      0 < Real.sqrt ((adaGradRun epsilon iterate0 steps).2 i j) + epsilon := by
    intro i j
    have := Real.sqrt_nonneg ((adaGradRun epsilon iterate0 steps).2 i j)
    linarith
  exact ⟨fun _ _ => rfl, fun _ _ _ _ _ => rfl, hnn, hpos,
    fun i j => ne_of_gt (hpos i j)⟩

/-- Witness for C10 at the default epsilon and a concrete gradient step. -/
theorem adaGrad_no_division_by_zero_witness :
    (0 : ℝ) < 1 / 100000000 ∧
    0 ≤ (adaGradRun (1 / 100000000) (fun _ _ => (0 : ℝ))
        [((1 : ℝ), fun _ _ => 2)]).2 (0 : Fin 1) (0 : Fin 1) ∧
    Real.sqrt ((adaGradRun (1 / 100000000) (fun _ _ => (0 : ℝ))
        [((1 : ℝ), fun _ _ => 2)]).2 (0 : Fin 1) (0 : Fin 1)) +
      1 / 100000000 ≠ 0 := by
  have h := @adaGrad_no_division_by_zero 1 1
    (1 / 100000000) (by norm_num) (fun _ _ => (0 : ℝ))
    [((1 : ℝ), fun _ _ => 2)]
  exact ⟨by norm_num, h.2.2.1 0 0, h.2.2.2.2 0 0⟩
